import Mathlib

/-!
Verification of the clipgen timestamp-parsing and clip-generation core.

The Python source (src/clipgen.py, with identical copies of the relevant
functions in src/utils.py and src/files.py) is shallowly embedded here.
Python strings are modelled as `List Char`; fallible operations return
`Option`; the filesystem and the external media tool (ffmpeg/ffprobe) are
modelled by an explicit environment of oracles.  Machine-level caveats of
the embedding are noted on each definition.
-/

namespace Clipgen

/-- Convert a Lean string literal to the `List Char` representation used for
Python strings throughout this development. -/
def pyStr (s : String) : List Char := s.data

/-- Python `s.replace(a, b)` for single characters `a`, `b`. -/
def replaceChar (s : List Char) (a b : Char) : List Char :=
  s.map fun c => if c = a then b else c

/-- Python `s.replace(a, '')` for a single character `a` (removal). -/
def removeChar (s : List Char) (a : Char) : List Char :=
  s.filter fun c => c != a

/-- ASCII model of Python `str.lower` on one character: uppercase ASCII
letters are lowered, every other character is kept.  (CPython also lowers
non-ASCII letters; no behaviour relevant to the claims depends on that.) -/
def pyLowerChar (c : Char) : Char :=
  if c = 'A' then 'a' else if c = 'B' then 'b' else if c = 'C' then 'c'
  else if c = 'D' then 'd' else if c = 'E' then 'e' else if c = 'F' then 'f'
  else if c = 'G' then 'g' else if c = 'H' then 'h' else if c = 'I' then 'i'
  else if c = 'J' then 'j' else if c = 'K' then 'k' else if c = 'L' then 'l'
  else if c = 'M' then 'm' else if c = 'N' then 'n' else if c = 'O' then 'o'
  else if c = 'P' then 'p' else if c = 'Q' then 'q' else if c = 'R' then 'r'
  else if c = 'S' then 's' else if c = 'T' then 't' else if c = 'U' then 'u'
  else if c = 'V' then 'v' else if c = 'W' then 'w' else if c = 'X' then 'x'
  else if c = 'Y' then 'y' else if c = 'Z' then 'z' else c

/-- Python `str.lower` over a whole string. -/
def pyLower (s : List Char) : List Char := s.map pyLowerChar

/-- Python `s.rstrip(a)` for a one-character strip set: remove every
trailing occurrence of characters satisfying `p`. -/
def pyRstrip (p : Char → Bool) (s : List Char) : List Char :=
  (s.reverse.dropWhile p).reverse

/-- Python `s.strip()`: remove leading and trailing whitespace.
`Char.isWhitespace` models Python's whitespace class on the ASCII domain;
Python also strips Unicode whitespace such as no-break space. -/
def pyStrip (s : List Char) : List Char :=
  pyRstrip Char.isWhitespace (s.dropWhile Char.isWhitespace)

/-- Fuel-driven worker for `splitWs`; the fuel only serves structural
recursion and never runs out when it starts at the string length. -/
def splitWsF : Nat → List Char → List (List Char)
  | _, [] => []
  | 0, _ :: _ => []
  | fuel + 1, c :: rest =>
    if c.isWhitespace then splitWsF fuel rest
    else (c :: rest.takeWhile (fun x => !x.isWhitespace)) ::
      splitWsF fuel (rest.dropWhile (fun x => !x.isWhitespace))

/-- Python `s.split()`: split on runs of whitespace, dropping empty
pieces.  As with `pyStrip`, the whitespace class is the ASCII model of
Python's (which also splits on Unicode whitespace). -/
def splitWs (s : List Char) : List (List Char) := splitWsF s.length s

/-- Decimal digit string of a natural number, as Python `str(n)`. -/
def natDigits (n : Nat) : List Char := Nat.toDigits 10 n

/-- Numeric value of a list of decimal digit characters
(Python `int` on an all-digit string). -/
def digitsToNat (s : List Char) : Nat :=
  s.foldl (fun n c => n * 10 + (c.toNat - 48)) 0

/-- Two-digit zero-padded field, as produced by `strftime` `%H`/`%M`/`%S`. -/
def pad2 (n : Nat) : List Char :=
  if n < 10 then '0' :: natDigits n else natDigits n

-- Configuration constants of the source (src/config.py and the constants
-- block of src/clipgen.py).
def FILEFORMAT : List Char := pyStr ".mp4"
def MAX_FILENAME_LENGTH : Nat := 255
def MAX_CLIP_DURATION_SECONDS : Int := 600
def DEFAULT_DURATION_SECONDS : Nat := 60
def REENCODING : Bool := false
def DEBUGGING : Bool := false

/-- A 1-or-2-digit field accepted by `strptime` for `%M` (minute 0-59). -/
def validMM (p : List Char) : Bool :=
  !p.isEmpty && p.length ≤ 2 && p.all Char.isDigit && digitsToNat p ≤ 59

/-- A 1-or-2-digit field accepted as seconds.  CPython `strptime` `%S` also
matches 60 and 61, but `datetime` construction then raises `ValueError`,
which every caller in the source catches; the net behaviour is a 0-59 range. -/
def validSS (p : List Char) : Bool :=
  !p.isEmpty && p.length ≤ 2 && p.all Char.isDigit && digitsToNat p ≤ 59

/-- A 1-or-2-digit field accepted by `strptime` for `%H` (hour 0-23). -/
def validHH (p : List Char) : Bool :=
  !p.isEmpty && p.length ≤ 2 && p.all Char.isDigit && digitsToNat p ≤ 23

/-- `datetime.strptime(s, "%M:%S")`, returning the time as seconds.  The
field syntax (1-2 digit fields in range, nothing else) models strptime on
ASCII digits; CPython's pattern also matches Unicode decimal digits. -/
def strptimeMS (s : List Char) : Option Nat :=
  match s.splitOn ':' with
  | [m, sec] =>
    if validMM m && validSS sec then some (digitsToNat m * 60 + digitsToNat sec)
    else none
  | _ => none

/-- `datetime.strptime(s, "%H:%M:%S")`, returning the time as seconds;
ASCII-digit field model as in `strptimeMS`. -/
def strptimeHMS (s : List Char) : Option Nat :=
  match s.splitOn ':' with
  | [h, m, sec] =>
    if validHH h && validMM m && validSS sec then
      some (digitsToNat h * 3600 + digitsToNat m * 60 + digitsToNat sec)
    else none
  | _ => none

/-- `strftime("%M:%S")` of a time of day given as seconds.  The source adds a
`timedelta` to a `datetime`, so an overflow past 59:59 rolls into the hour
field, which `%M:%S` then silently drops; hence the modulus at call sites. -/
def fmtMS (n : Nat) : List Char :=
  pad2 (n / 60) ++ ':' :: pad2 (n % 60)

/-- `strftime("%H:%M:%S")` of a time of day given as seconds (mod one day). -/
def fmtHMS (n : Nat) : List Char :=
  pad2 (n / 3600) ++ ':' :: pad2 (n % 3600 / 60) ++ ':' :: pad2 (n % 60)

/-- `add_duration` (src/utils.py:125, src/clipgen.py:806): add the default
duration (60 s) to a start timestamp.  Strings of length at most 5 are
parsed as `%M:%S`, longer ones as `%H:%M:%S`; an unparseable string makes
the Python return the sentinel `-1`, modelled here as `none`. -/
def add_duration (start : List Char) : Option (List Char) :=
  if start.length ≤ 5 then
    (strptimeMS start).map fun n => fmtMS ((n + DEFAULT_DURATION_SECONDS) % 3600)
  else
    (strptimeHMS start).map fun n => fmtHMS ((n + DEFAULT_DURATION_SECONDS) % 86400)

/-- The per-token cleaning of `parse_timestamps` (src/utils.py:174-177):
`raw.strip().rstrip(',').rstrip('-')` then `.replace('.', ':')`. -/
def cleanToken (tok : List Char) : List Char :=
  replaceChar (pyRstrip (fun c => c = '-') (pyRstrip (fun c => c = ',') (pyStrip tok))) '.' ':'

/-- Outcome of classifying one cleaned token in `parse_timestamps`. -/
inductive TokenClass where
  /-- The empty token: silently ignored. -/
  | blank : TokenClass
  /-- A (start, end) pair appended to `parsed_timestamps`. -/
  | pair (p : List Char × List Char) : TokenClass
  /-- A token appended to `skipped_timestamps`. -/
  | skip (t : List Char) : TokenClass
  /-- A single-timestamp token whose `add_duration` failed: dropped with a
  warning, appended to neither list. -/
  | dropped : TokenClass
deriving DecidableEq, Repr

/-- The if/elif classification of one cleaned token
(src/utils.py:179-206, src/clipgen.py:125-151).  The digit guard
`Char.isDigit` models Python's `str.isdigit()` on the ASCII domain;
CPython additionally accepts non-ASCII digit characters (superscripts,
Arabic-Indic digits), which this embedding does not carry -- the one
universally quantified claim resting on this guard (C3) is therefore
stated over ASCII cell texts only. -/
def classifyToken (t : List Char) : TokenClass :=
  if t.isEmpty then .blank
  else if '-' ∈ t then
    let dashPos := t.findIdx fun c => c = '-'
    if 0 < dashPos ∧ (t.getD (dashPos - 1) ' ').isDigit then
      .pair (t.take dashPos, t.drop (dashPos + 1))
    else .skip t
  else if ':' ∈ t then
    let colonPos := t.findIdx fun c => c = ':'
    if 0 < colonPos ∧ (t.getD (colonPos - 1) ' ').isDigit then
      match add_duration t with
      | some endTime => .pair (t, endTime)
      | none => .dropped
    else .skip t
  else .skip t

/-- The token loop of `parse_timestamps`: returns the `parsed_timestamps`
and `skipped_timestamps` lists, in source order. -/
def parseLoop : List (List Char) → List (List Char × List Char) × List (List Char)
  | [] => ([], [])
  | tok :: rest =>
    let r := parseLoop rest
    match classifyToken (cleanToken tok) with
    | .pair p => (p :: r.1, r.2)
    | .skip s => (r.1, s :: r.2)
    | _ => r

/-- The separator normalisation of `parse_timestamps` (src/utils.py:166):
`cell_value.lower().replace('+', ' ').replace(';', ' ').replace(',', ' ')`. -/
def normalizeCell (cell : List Char) : List Char :=
  replaceChar (replaceChar (replaceChar (pyLower cell) '+' ' ') ';' ' ') ',' ' '

/-- `parse_timestamps` (src/utils.py:153-221, src/clipgen.py:127-187),
returning both the parsed pairs (the Python return value) and the skipped
tokens (which the Python only reports in a consolidated warning).  The
`ref` argument is used by the source only inside that warning text, so it
does not influence the result. -/
def parse_timestampsFull (cell : List Char) (_ref : Option (List Char) := none) :
    List (List Char × List Char) × List (List Char) :=
  parseLoop (splitWs (normalizeCell cell))

/-- The Python return value of `parse_timestamps`: the pair list only. -/
def parse_timestamps (cell : List Char) (ref : Option (List Char) := none) :
    List (List Char × List Char) :=
  (parse_timestampsFull cell ref).1

/-- `sanitize_filename` (src/utils.py:110-123, src/clipgen.py:112-123):
replace backslash and slash with a hyphen and question mark with an
underscore, then delete quote, double quote, period, angle brackets, pipe
and colon, in the order of the source. -/
def sanitize_filename (text : List Char) : List Char :=
  removeChar (removeChar (removeChar (removeChar (removeChar (removeChar (removeChar
    (replaceChar (replaceChar (replaceChar text '\\' '-') '/' '-') '?' '_')
    '\'') '"') '.') '>') '<') '|') ':'

/-- Python `s.rfind(c)`: index of the last occurrence of `c`, if any. -/
def rfindChar : List Char → Char → Option Nat
  | [], _ => none
  | a :: rest, c =>
    match rfindChar rest c with
    | some i => some (i + 1)
    | none => if a = c then some 0 else none

/-- Python `s.find(pat)` for a substring `pat`: index of the first
occurrence, if any. -/
def strFind (pat : List Char) : List Char → Option Nat
  | [] => if pat.isPrefixOf [] then some 0 else none
  | c :: rest =>
    if pat.isPrefixOf (c :: rest) then some 0
    else (strFind pat rest).map (· + 1)

/-- An issue record (the dict built by the row extractor).  The cell object
is represented by its string value plus the A1-style reference the source
derives for diagnostics; `times` is empty until `clean_issue` fills it. -/
structure Issue where
  cellValue : List Char
  cellRef : Option (List Char) := none
  desc : List Char
  category : List Char
  study : List Char
  participant : List Char
  times : List (List Char × List Char) := []
deriving Repr

/-- `clean_issue` (src/files.py:95-144, src/clipgen.py:630-665): parse the
cell value into `times`, keep only the description text after the last
right bracket (stripped), sanitize it, and sanitize the category,
defaulting an empty category to "uncategorized". -/
def clean_issue (i : Issue) : Issue :=
  let times := parse_timestamps i.cellValue i.cellRef
  let desc0 :=
    match rfindChar i.desc ']' with
    | some p => pyStrip (i.desc.drop (p + 1))
    | none => pyStrip i.desc
  let desc := sanitize_filename desc0
  let category :=
    if i.category.isEmpty then pyStr "uncategorized"
    else sanitize_filename i.category
  { i with times := times, desc := desc, category := category }

/-- `truncate_filename` (src/files.py:74-93, src/clipgen.py:620-628):
cut a filename down to `MAX_FILENAME_LENGTH`, re-appending a step suffix
and the extension when `step > 1`, else just the extension. -/
def truncate_filename (filename : List Char) (step : Nat := 1) : List Char :=
  if filename.length > MAX_FILENAME_LENGTH then
    if step > 1 then
      filename.take (MAX_FILENAME_LENGTH - (1 + (natDigits step).length + FILEFORMAT.length))
        ++ '-' :: natDigits step ++ FILEFORMAT
    else
      filename.take (MAX_FILENAME_LENGTH - FILEFORMAT.length) ++ FILEFORMAT
  else filename

/-- One rewriting step of the `get_unique_filename` collision loop
(src/files.py:61-68): on the first collision, insert `-1` before the first
occurrence of the extension; on later collisions, rewrite everything after
the last dash.  A failed `find`/`rfind` returns -1 in Python, making the
slice `filename[0:-1]` drop the last character; both cases are kept. -/
def nextCandidate (filename : List Char) (step : Nat) : List Char :=
  if step < 2 then
    match strFind FILEFORMAT filename with
    | some p => filename.take p ++ '-' :: natDigits step ++ FILEFORMAT
    | none => filename.dropLast ++ '-' :: natDigits step ++ FILEFORMAT
  else
    match rfindChar filename '-' with
    | some p => filename.take p ++ '-' :: natDigits step ++ FILEFORMAT
    | none => filename.dropLast ++ '-' :: natDigits step ++ FILEFORMAT

/-- The `while True` loop of `get_unique_filename`, with the filesystem
modelled as the list `fs` of existing file names.  `fuel` bounds the
iteration count; since the loop generates pairwise distinct candidate
names, `fs.length + 1` iterations always reach a free name. -/
def uniqueLoop (fs : List (List Char)) : Nat → List Char → Nat → List Char
  | 0, filename, _ => filename
  | fuel + 1, filename, step =>
    if filename ∈ fs then
      uniqueLoop fs fuel (nextCandidate filename step) (step + 1)
    else truncate_filename filename step

/-- `get_unique_filename` (src/files.py:47-72, src/clipgen.py:603-618). -/
def get_unique_filename (fs : List (List Char)) (filename : List Char) : List Char :=
  uniqueLoop fs (fs.length + 1) filename 1

/-- `strptime` both timestamps with one format and subtract
(the body of the `for fmt in formats` loop of `get_duration`). -/
def tryDur (f : List Char → Option Nat) (a b : List Char) : Option Int :=
  match f a, f b with
  | some x, some y => some ((y : Int) - (x : Int))
  | _, _ => none

/-- `get_duration` (src/video.py:162-196, src/clipgen.py:781-804): try
`%M:%S` then `%H:%M:%S` when the start string has length at most 5, the
opposite order otherwise; the first format parsing both strings gives the
difference in seconds.  (The Python `-1` sentinel test for the end string
concerns `add_duration` failures, which in this embedding never reach a
pair; pairs always carry strings.) -/
def get_duration (a b : List Char) : Option Int :=
  if a.length ≤ 5 then
    (tryDur strptimeMS a b).orElse fun _ => tryDur strptimeHMS a b
  else
    (tryDur strptimeHMS a b).orElse fun _ => tryDur strptimeMS a b

/-- Oracles for everything outside the program: the filesystem snapshot and
the external tools.  `probe` is ffprobe (`None` for any of its failure
modes), `cutOk` is the ffmpeg invocation together with the
output-file-created check, `confirmLong` is the user answering `y` to the
over-ten-minutes prompt, and `encodeOk` models whether assembling the
output filename raises an encoding error (the `except` clause in
`process_clips`).  File writes performed during a run are not fed back
into `fs`; existence checks consult the run-start snapshot. -/
structure Env where
  fs : List (List Char)
  probe : List Char → Option Int
  cutOk : Bool → List Char → List Char → List Char → Int → Bool
  confirmLong : Bool
  encodeOk : List Char → Bool

/-- `get_file_duration` (src/video.py:125-160): existence check, then the
ffprobe oracle. -/
def get_file_duration (env : Env) (filepath : List Char) : Option Int :=
  if filepath ∈ env.fs then env.probe filepath else none

/-- `run_ffmpeg` (src/video.py:16-123, src/clipgen.py:668-748): all the
validation the source performs before and after invoking ffmpeg, with the
invocation itself an oracle.  Returns whether a clip was generated. -/
def run_ffmpeg (env : Env) (inputFile outputFile startPos endPos : List Char)
    (reencode : Bool) : Bool :=
  if inputFile ∉ env.fs then false
  else
    match get_duration startPos endPos with
    | none => false
    | some d =>
      match get_file_duration env inputFile with
      | none => false
      | some fileLength =>
        if d < 0 then false
        else if d > fileLength then false
        else if d > MAX_CLIP_DURATION_SECONDS && !env.confirmLong then false
        else if DEBUGGING then false
        else env.cutOk reencode inputFile outputFile startPos d

/-- The output-name template of `process_clips` (src/clipgen.py:988-990):
the f-string `[{category}] {study} {participant} {desc}{FILEFORMAT}`
applied to a cleaned issue. -/
def buildClipName (c : Issue) : List Char :=
  '[' :: c.category ++ pyStr "] " ++ c.study ++ ' ' :: c.participant
    ++ ' ' :: c.desc ++ FILEFORMAT

/-- The source-video name `{study}_{participant}{FILEFORMAT}`
(src/clipgen.py:978). -/
def baseVideoName (c : Issue) : List Char :=
  c.study ++ '_' :: c.participant ++ FILEFORMAT

/-- The inner `for vid_in, vid_out in clip['times']` loop of
`process_clips`, returning (generated, skipped) counts for one cleaned
issue.  An encoding failure while building the name skips the clip and
breaks out of the loop, exactly as the `except ... break` does. -/
def processIssueTimes (env : Env) (c : Issue) (base : List Char) :
    List (List Char × List Char) → Nat × Nat
  | [] => (0, 0)
  | (vidIn, vidOut) :: rest =>
    if !env.encodeOk (buildClipName c) then (0, 1)
    else
      let vidName := get_unique_filename env.fs (buildClipName c)
      let ok := run_ffmpeg env base vidName vidIn vidOut REENCODING
      let r := processIssueTimes env c base rest
      if ok then (r.1 + 1, r.2) else (r.1, r.2 + 1)

/-- The issue loop of `process_clips` (src/clipgen.py:971-1010), returning
the accumulated (videos_generated, videos_skipped).  The
`missing_videos` set only controls a diagnostic print and is omitted; a
missing source video makes `run_ffmpeg` fail for each pair of the issue. -/
def processClipsAux (env : Env) : List Issue → Nat × Nat
  | [] => (0, 0)
  | clip :: rest =>
    let c := clean_issue clip
    let r := processClipsAux env rest
    if c.times.isEmpty then (r.1, r.2 + 1)
    else
      let t := processIssueTimes env c (baseVideoName c) c.times
      (t.1 + r.1, t.2 + r.2)

/-- `process_clips` (src/clipgen.py:957-1017): returns the count of
videos generated (an empty clip list short-circuits to 0). -/
def process_clips (env : Env) (clipsList : List Issue) : Nat :=
  if clipsList.isEmpty then 0
  else (processClipsAux env clipsList).1

/-! ### Digit-before-delimiter adjacency

The structural guard of the parser: a token only ever yields a pair when a
dash or colon is immediately preceded by a digit.  `hasAdjacent delim s`
says some character satisfying `delim` is immediately preceded by a digit
somewhere in `s`. -/

/-- The delimiters that can survive to a cleaned token as ':' or '-':
colon, dash, and the period that the cleaning rewrites into a colon. -/
def isDelim (c : Char) : Bool := c = ':' || c = '-' || c = '.'

/-- The delimiters tested by the token classifier itself. -/
def isDelim2 (c : Char) : Bool := c = ':' || c = '-'

/-- Some character satisfying `delim` is immediately preceded by a digit. -/
def hasAdjacent (delim : Char → Bool) : List Char → Bool
  | a :: b :: rest => (a.isDigit && delim b) || hasAdjacent delim (b :: rest)
  | _ => false

lemma hasAdjacent_cons (delim : Char → Bool) (c : Char) {l : List Char}
    (h : hasAdjacent delim l = true) : hasAdjacent delim (c :: l) = true := by
  cases l with
  | nil => simp [hasAdjacent] at h
  | cons b rest => simp [hasAdjacent, h]

lemma hasAdjacent_append_right (delim : Char → Bool) {l : List Char} (l' : List Char)
    (h : hasAdjacent delim l = true) : hasAdjacent delim (l ++ l') = true := by
  induction l with
  | nil => simp [hasAdjacent] at h
  | cons a t ih =>
    cases t with
    | nil => simp [hasAdjacent] at h
    | cons b rest =>
      simp only [List.cons_append]
      rw [hasAdjacent] at h ⊢
      simp only [Bool.or_eq_true] at h
      rcases h with h1 | h2
      · simp [h1]
      · have := ih h2
        simp only [List.cons_append] at this
        simp [this]

lemma hasAdjacent_append_left (delim : Char → Bool) (l : List Char) {l' : List Char}
    (h : hasAdjacent delim l' = true) : hasAdjacent delim (l ++ l') = true := by
  induction l with
  | nil => simpa using h
  | cons a t ih =>
    simp only [List.cons_append]
    exact hasAdjacent_cons delim a ih

lemma hasAdjacent_of_infix (delim : Char → Bool) {l s : List Char}
    (hinf : l <:+: s) (h : hasAdjacent delim l = true) : hasAdjacent delim s = true := by
  obtain ⟨u, v, rfl⟩ := hinf
  have h1 := hasAdjacent_append_right delim v h
  have h2 := hasAdjacent_append_left delim u h1
  simpa [List.append_assoc] using h2

lemma hasAdjacent_of_getD (delim : Char → Bool) (t : List Char) (i : Nat)
    (hlen : i + 1 < t.length) (h1 : (t.getD i ' ').isDigit = true)
    (h2 : delim (t.getD (i + 1) ' ') = true) : hasAdjacent delim t = true := by
  induction t generalizing i with
  | nil => simp at hlen
  | cons a rest ih =>
    cases i with
    | zero =>
      cases rest with
      | nil => simp at hlen
      | cons b r2 =>
        simp only [List.getD_cons_zero] at h1
        simp only [List.getD_cons_succ, List.getD_cons_zero] at h2
        simp [hasAdjacent, h1, h2]
    | succ j =>
      have hlen' : j + 1 < rest.length := by
        simp only [List.length_cons] at hlen; omega
      have h1' : (rest.getD j ' ').isDigit = true := by
        simpa [List.getD_cons_succ] using h1
      have h2' : delim (rest.getD (j + 1) ' ') = true := by
        simpa [List.getD_cons_succ] using h2
      exact hasAdjacent_cons delim a (ih j hlen' h1' h2')

lemma findIdx_mem_spec (c : Char) (t : List Char) (h : c ∈ t) :
    t.findIdx (fun x => x = c) < t.length ∧
      t.getD (t.findIdx (fun x => x = c)) ' ' = c := by
  induction t with
  | nil => simp at h
  | cons a rest ih =>
    rw [List.findIdx_cons]
    by_cases hac : a = c
    · subst hac
      simp
    · have hc : c ∈ rest := by
        rcases List.mem_cons.mp h with h' | h'
        · exact absurd h'.symm hac
        · exact h'
      obtain ⟨h1, h2⟩ := ih hc
      have hcond : (decide (a = c)) = false := by simp [hac]
      rw [hcond]
      simp only [cond_false]
      refine ⟨by simp only [List.length_cons]; omega, ?_⟩
      simpa [List.getD_cons_succ] using h2

lemma hasAdjacent_map {f : Char → Char} {d1 d2 : Char → Bool}
    (hf : ∀ c : Char, ((f c).isDigit = true → c.isDigit = true) ∧
      (d1 (f c) = true → d2 c = true))
    (l : List Char) (h : hasAdjacent d1 (l.map f) = true) :
    hasAdjacent d2 l = true := by
  induction l with
  | nil => simp [hasAdjacent] at h
  | cons a t ih =>
    cases t with
    | nil => simp [hasAdjacent] at h
    | cons b rest =>
      rw [List.map_cons, List.map_cons, hasAdjacent] at h
      simp only [Bool.or_eq_true] at h
      rcases h with h1 | h2
      · obtain ⟨hd, hdel⟩ := Bool.and_eq_true_iff.mp h1
        rw [hasAdjacent]
        simp [(hf a).1 hd, (hf b).2 hdel]
      · have : hasAdjacent d1 ((b :: rest).map f) = true := by
          simpa [List.map_cons] using h2
        exact hasAdjacent_cons d2 a (ih this)

lemma pyLowerChar_cases (c : Char) :
    pyLowerChar c = c ∨ pyLowerChar c ∈ pyStr "abcdefghijklmnopqrstuvwxyz" := by
  by_cases h1 : c = 'A'
  · subst h1; right; decide
  by_cases h2 : c = 'B'
  · subst h2; right; decide
  by_cases h3 : c = 'C'
  · subst h3; right; decide
  by_cases h4 : c = 'D'
  · subst h4; right; decide
  by_cases h5 : c = 'E'
  · subst h5; right; decide
  by_cases h6 : c = 'F'
  · subst h6; right; decide
  by_cases h7 : c = 'G'
  · subst h7; right; decide
  by_cases h8 : c = 'H'
  · subst h8; right; decide
  by_cases h9 : c = 'I'
  · subst h9; right; decide
  by_cases h10 : c = 'J'
  · subst h10; right; decide
  by_cases h11 : c = 'K'
  · subst h11; right; decide
  by_cases h12 : c = 'L'
  · subst h12; right; decide
  by_cases h13 : c = 'M'
  · subst h13; right; decide
  by_cases h14 : c = 'N'
  · subst h14; right; decide
  by_cases h15 : c = 'O'
  · subst h15; right; decide
  by_cases h16 : c = 'P'
  · subst h16; right; decide
  by_cases h17 : c = 'Q'
  · subst h17; right; decide
  by_cases h18 : c = 'R'
  · subst h18; right; decide
  by_cases h19 : c = 'S'
  · subst h19; right; decide
  by_cases h20 : c = 'T'
  · subst h20; right; decide
  by_cases h21 : c = 'U'
  · subst h21; right; decide
  by_cases h22 : c = 'V'
  · subst h22; right; decide
  by_cases h23 : c = 'W'
  · subst h23; right; decide
  by_cases h24 : c = 'X'
  · subst h24; right; decide
  by_cases h25 : c = 'Y'
  · subst h25; right; decide
  by_cases h26 : c = 'Z'
  · subst h26; right; decide
  left
  unfold pyLowerChar
  rw [if_neg h1, if_neg h2, if_neg h3, if_neg h4, if_neg h5, if_neg h6, if_neg h7, if_neg h8, if_neg h9, if_neg h10, if_neg h11, if_neg h12, if_neg h13, if_neg h14, if_neg h15, if_neg h16, if_neg h17, if_neg h18, if_neg h19, if_neg h20, if_neg h21, if_neg h22, if_neg h23, if_neg h24, if_neg h25, if_neg h26]

lemma pyLowerChar_isDigit {c : Char} (h : (pyLowerChar c).isDigit = true) :
    c.isDigit = true := by
  rcases pyLowerChar_cases c with hc | hc
  · rwa [hc] at h
  · have hall : ∀ d ∈ pyStr "abcdefghijklmnopqrstuvwxyz", d.isDigit = false := by decide
    rw [hall _ hc] at h
    cases h

lemma pyLowerChar_isDelim {c : Char} (h : isDelim (pyLowerChar c) = true) :
    isDelim c = true := by
  rcases pyLowerChar_cases c with hc | hc
  · rwa [hc] at h
  · have hall : ∀ d ∈ pyStr "abcdefghijklmnopqrstuvwxyz", isDelim d = false := by decide
    rw [hall _ hc] at h
    cases h

lemma substSpace_fact (a : Char) :
    ∀ c : Char, (((if c = a then ' ' else c)).isDigit = true → c.isDigit = true) ∧
      (isDelim (if c = a then ' ' else c) = true → isDelim c = true) := by
  intro c
  by_cases hc : c = a
  · constructor
    · intro h
      rw [if_pos hc] at h
      exact absurd h (by decide)
    · intro h
      rw [if_pos hc] at h
      exact absurd h (by decide)
  · simp [hc]

lemma replaceChar_space_adj (a : Char) {l : List Char}
    (h : hasAdjacent isDelim (replaceChar l a ' ') = true) :
    hasAdjacent isDelim l = true :=
  hasAdjacent_map (substSpace_fact a) l h

lemma pyLower_adj {l : List Char}
    (h : hasAdjacent isDelim (pyLower l) = true) : hasAdjacent isDelim l = true :=
  hasAdjacent_map (fun _ => ⟨fun hd => pyLowerChar_isDigit hd,
    fun hd => pyLowerChar_isDelim hd⟩) l h

/-- Any digit-before-delimiter adjacency in the normalised cell text is
already present in the raw cell text: lower-casing touches only letters
and separator replacement only produces spaces. -/
lemma normalizeCell_adj {cell : List Char}
    (h : hasAdjacent isDelim (normalizeCell cell) = true) :
    hasAdjacent isDelim cell = true := by
  unfold normalizeCell at h
  exact pyLower_adj (replaceChar_space_adj '+'
    (replaceChar_space_adj ';' (replaceChar_space_adj ',' h)))

lemma dotColon_fact :
    ∀ c : Char, (((if c = '.' then ':' else c)).isDigit = true → c.isDigit = true) ∧
      (isDelim2 (if c = '.' then ':' else c) = true → isDelim c = true) := by
  intro c
  by_cases hc : c = '.'
  · subst hc
    exact ⟨fun h => absurd h (by decide), fun _ => by decide⟩
  · refine ⟨by simp [hc], ?_⟩
    intro h
    rw [if_neg hc] at h
    simp only [isDelim2, Bool.or_eq_true] at h
    simp only [isDelim, Bool.or_eq_true]
    tauto

/-- Adjacency found by the classifier in a cleaned token pulls back through
the period-to-colon rewrite. -/
lemma replaceDot_adj {l : List Char}
    (h : hasAdjacent isDelim2 (replaceChar l '.' ':') = true) :
    hasAdjacent isDelim l = true :=
  hasAdjacent_map dotColon_fact l h

lemma pyRstrip_isPrefixOf (p : Char → Bool) (s : List Char) : pyRstrip p s <+: s := by
  unfold pyRstrip
  have h : s.reverse.dropWhile p <:+ s.reverse := List.dropWhile_suffix p
  have h2 : ((s.reverse.dropWhile p).reverse).reverse <:+ s.reverse := by
    simpa using h
  exact List.reverse_suffix.mp h2

lemma pyStrip_isInfixOf (s : List Char) : pyStrip s <:+: s := by
  unfold pyStrip
  exact (pyRstrip_isPrefixOf _ _).isInfix.trans (List.dropWhile_suffix _).isInfix

/-- The cleaning of one raw token produces an infix of the raw token,
up to the period-to-colon rewrite handled separately. -/
lemma cleanToken_adj {tok : List Char}
    (h : hasAdjacent isDelim2 (cleanToken tok) = true) :
    hasAdjacent isDelim tok = true := by
  unfold cleanToken at h
  have h1 := replaceDot_adj h
  have hinf : pyRstrip (fun c => c = '-') (pyRstrip (fun c => c = ',') (pyStrip tok)) <:+: tok :=
    ((pyRstrip_isPrefixOf _ _).isInfix).trans
      (((pyRstrip_isPrefixOf _ _).isInfix).trans (pyStrip_isInfixOf tok))
  exact hasAdjacent_of_infix isDelim hinf h1

/-- Every token produced by whitespace splitting is a contiguous infix of
the split string. -/
lemma mem_splitWsF_isInfixOf : ∀ (n : Nat) (s : List Char),
    ∀ t ∈ splitWsF n s, t <:+: s := by
  intro n
  induction n with
  | zero =>
    intro s t ht
    cases s with
    | nil => simp [splitWsF] at ht
    | cons c rest => simp [splitWsF] at ht
  | succ n ih =>
    intro s t ht
    cases s with
    | nil => simp [splitWsF] at ht
    | cons c rest =>
      rw [splitWsF] at ht
      by_cases hw : c.isWhitespace
      · rw [if_pos hw] at ht
        exact List.infix_cons (ih rest t ht)
      · rw [if_neg hw] at ht
        rcases List.mem_cons.mp ht with rfl | hmem
        · refine ⟨[], rest.dropWhile (fun x => !x.isWhitespace), ?_⟩
          simp [List.takeWhile_append_dropWhile]
        · have hdrop := ih _ t hmem
          exact hdrop.trans
            (List.infix_cons
              (List.dropWhile_suffix (l := rest) (fun x => !x.isWhitespace)).isInfix)

lemma mem_splitWs_isInfixOf (s : List Char) : ∀ t ∈ splitWs s, t <:+: s :=
  mem_splitWsF_isInfixOf s.length s

/-- A cleaned token classified as a pair always contains a colon or dash
immediately preceded by a digit. -/
lemma classify_pair_adj (t : List Char) (p : List Char × List Char)
    (h : classifyToken t = .pair p) : hasAdjacent isDelim2 t = true := by
  unfold classifyToken at h
  by_cases h0 : t.isEmpty
  · simp [h0] at h
  rw [if_neg h0] at h
  by_cases hd : '-' ∈ t
  · rw [if_pos hd] at h
    by_cases hcond : 0 < (t.findIdx fun c => c = '-') ∧
        ((t.getD ((t.findIdx fun c => c = '-') - 1) ' ').isDigit : Bool) = true
    · obtain ⟨hp, hdig⟩ := hcond
      obtain ⟨hlt, hget⟩ := findIdx_mem_spec '-' t hd
      refine hasAdjacent_of_getD isDelim2 t ((t.findIdx fun c => c = '-') - 1)
        (by omega) hdig ?_
      have hix : (t.findIdx fun c => c = '-') - 1 + 1 = (t.findIdx fun c => c = '-') := by
        omega
      rw [hix, hget]
      decide
    · rw [if_neg (by exact_mod_cast hcond)] at h
      cases h
  · rw [if_neg hd] at h
    by_cases hc : ':' ∈ t
    · rw [if_pos hc] at h
      by_cases hcond : 0 < (t.findIdx fun c => c = ':') ∧
          ((t.getD ((t.findIdx fun c => c = ':') - 1) ' ').isDigit : Bool) = true
      · obtain ⟨hp, hdig⟩ := hcond
        obtain ⟨hlt, hget⟩ := findIdx_mem_spec ':' t hc
        refine hasAdjacent_of_getD isDelim2 t ((t.findIdx fun c => c = ':') - 1)
          (by omega) hdig ?_
        have hix : (t.findIdx fun c => c = ':') - 1 + 1 = (t.findIdx fun c => c = ':') := by
          omega
        rw [hix, hget]
        decide
      · rw [if_neg (by exact_mod_cast hcond)] at h
        cases h
    · rw [if_neg hc] at h
      cases h

/-- If the parser loop produced any pair, some raw token's cleaned form was
classified as a pair. -/
lemma parseLoop_pairs_ne_nil (toks : List (List Char))
    (h : (parseLoop toks).1 ≠ []) :
    ∃ tok ∈ toks, ∃ p, classifyToken (cleanToken tok) = .pair p := by
  induction toks with
  | nil => simp [parseLoop] at h
  | cons tok rest ih =>
    rcases hcl : classifyToken (cleanToken tok) with _ | p | s | _
    · rw [parseLoop] at h
      rw [hcl] at h
      obtain ⟨u, hu, q, hq⟩ := ih h
      exact ⟨u, List.mem_cons_of_mem _ hu, q, hq⟩
    · exact ⟨tok, List.mem_cons_self _ _, p, hcl⟩
    · rw [parseLoop] at h
      rw [hcl] at h
      simp only at h
      obtain ⟨u, hu, q, hq⟩ := ih h
      exact ⟨u, List.mem_cons_of_mem _ hu, q, hq⟩
    · rw [parseLoop] at h
      rw [hcl] at h
      obtain ⟨u, hu, q, hq⟩ := ih h
      exact ⟨u, List.mem_cons_of_mem _ hu, q, hq⟩

/-! ### Sanitizer lemmas -/

/-- A character left untouched by every rule of `sanitize_filename`. -/
def goodChar (c : Char) : Prop :=
  c ≠ '\\' ∧ c ≠ '/' ∧ c ≠ '?' ∧ c ≠ '\'' ∧ c ≠ '"' ∧ c ≠ '.' ∧
    c ≠ '>' ∧ c ≠ '<' ∧ c ≠ '|' ∧ c ≠ ':'

lemma mem_replaceChar {c : Char} {s : List Char} {a b : Char}
    (h : c ∈ replaceChar s a b) : ∃ x ∈ s, (if x = a then b else x) = c := by
  simpa [replaceChar, List.mem_map] using h

lemma mem_removeChar {c : Char} {s : List Char} {a : Char}
    (h : c ∈ removeChar s a) : c ∈ s ∧ c ≠ a := by
  simpa [removeChar, List.mem_filter, bne_iff_ne] using h

lemma replaceChar_id {t : List Char} {a b : Char} (h : ∀ c ∈ t, c ≠ a) :
    replaceChar t a b = t := by
  unfold replaceChar
  induction t with
  | nil => rfl
  | cons x r ih =>
    rw [List.map_cons, if_neg (h x (List.mem_cons_self x r)),
      ih fun c hc => h c (List.mem_cons_of_mem _ hc)]

lemma removeChar_id {t : List Char} {a : Char} (h : ∀ c ∈ t, c ≠ a) :
    removeChar t a = t :=
  List.filter_eq_self.mpr fun c hc => by simpa [bne_iff_ne] using h c hc

/-- Every character of a sanitized string is a fixed point of every
sanitizing rule. -/
lemma sanitize_mem_good (t : List Char) : ∀ c ∈ sanitize_filename t, goodChar c := by
  intro c hc
  unfold sanitize_filename at hc
  obtain ⟨hc, hne10⟩ := mem_removeChar hc
  obtain ⟨hc, hne9⟩ := mem_removeChar hc
  obtain ⟨hc, hne8⟩ := mem_removeChar hc
  obtain ⟨hc, hne7⟩ := mem_removeChar hc
  obtain ⟨hc, hne6⟩ := mem_removeChar hc
  obtain ⟨hc, hne5⟩ := mem_removeChar hc
  obtain ⟨hc, hne4⟩ := mem_removeChar hc
  obtain ⟨x3, hx3, hcx3⟩ := mem_replaceChar hc
  obtain ⟨x2, hx2, hx23⟩ := mem_replaceChar hx3
  obtain ⟨x1, hx1, hx12⟩ := mem_replaceChar hx2
  have hq : c ≠ '?' := by
    by_cases h3 : x3 = '?'
    · rw [if_pos h3] at hcx3
      rw [← hcx3]
      decide
    · rw [if_neg h3] at hcx3
      rw [← hcx3]
      exact h3
  have hx3slash : x3 ≠ '/' := by
    by_cases h2 : x2 = '/'
    · rw [if_pos h2] at hx23
      rw [← hx23]
      decide
    · rw [if_neg h2] at hx23
      rw [← hx23]
      exact h2
  have hx3back : x3 ≠ '\\' := by
    have hx2back : x2 ≠ '\\' := by
      by_cases h1 : x1 = '\\'
      · rw [if_pos h1] at hx12
        rw [← hx12]
        decide
      · rw [if_neg h1] at hx12
        rw [← hx12]
        exact h1
    by_cases h2 : x2 = '/'
    · rw [if_pos h2] at hx23
      rw [← hx23]
      decide
    · rw [if_neg h2] at hx23
      rw [← hx23]
      exact hx2back
  have hslash : c ≠ '/' := by
    by_cases h3 : x3 = '?'
    · rw [if_pos h3] at hcx3
      rw [← hcx3]
      decide
    · rw [if_neg h3] at hcx3
      rw [← hcx3]
      exact hx3slash
  have hback : c ≠ '\\' := by
    by_cases h3 : x3 = '?'
    · rw [if_pos h3] at hcx3
      rw [← hcx3]
      decide
    · rw [if_neg h3] at hcx3
      rw [← hcx3]
      exact hx3back
  exact ⟨hback, hslash, hq, hne4, hne5, hne6, hne7, hne8, hne9, hne10⟩

/-- A string of rule-fixed characters passes through the sanitizer
unchanged. -/
lemma sanitize_fixed (t : List Char) (h : ∀ c ∈ t, goodChar c) :
    sanitize_filename t = t := by
  unfold sanitize_filename
  rw [replaceChar_id fun c hc => (h c hc).1,
    replaceChar_id fun c hc => (h c hc).2.1,
    replaceChar_id fun c hc => (h c hc).2.2.1,
    removeChar_id fun c hc => (h c hc).2.2.2.1,
    removeChar_id fun c hc => (h c hc).2.2.2.2.1,
    removeChar_id fun c hc => (h c hc).2.2.2.2.2.1,
    removeChar_id fun c hc => (h c hc).2.2.2.2.2.2.1,
    removeChar_id fun c hc => (h c hc).2.2.2.2.2.2.2.1,
    removeChar_id fun c hc => (h c hc).2.2.2.2.2.2.2.2.1,
    removeChar_id fun c hc => (h c hc).2.2.2.2.2.2.2.2.2]

/-! ### rfind lemmas -/

lemma rfindChar_eq_none {v : List Char} {c : Char} (h : c ∉ v) :
    rfindChar v c = none := by
  induction v with
  | nil => rfl
  | cons a rest ih =>
    have ha : a ≠ c := fun he => h (he ▸ List.mem_cons_self a rest)
    have hr : c ∉ rest := fun hm => h (List.mem_cons_of_mem _ hm)
    rw [rfindChar, ih hr, if_neg ha]

/-- `rfind` locates the last occurrence: on `u ++ close :: v` with no
occurrence in `v`, it returns the length of `u`. -/
lemma rfindChar_last (u v : List Char) (c : Char) (h : c ∉ v) :
    rfindChar (u ++ c :: v) c = some u.length := by
  induction u with
  | nil =>
    rw [List.nil_append, rfindChar, rfindChar_eq_none h, if_pos rfl]
    rfl
  | cons a u' ih =>
    rw [List.cons_append, rfindChar, ih]
    rfl

/-! ### Claim-statement predicates

These two predicates transcribe the wording of claims C3 and C4 (not the
code), so that the claims can be stated and refuted exactly as written. -/

/-- Wording of claim C3: the text contains a ':' or '-' adjacent to a digit
(on either side). -/
def hasColonDashAdjDigit : List Char → Bool
  | a :: b :: rest =>
    (a.isDigit && (b = ':' || b = '-')) || ((a = ':' || a = '-') && b.isDigit)
      || hasColonDashAdjDigit (b :: rest)
  | _ => false

/-- Wording of claim C4: the token contains a '-' at a position immediately
preceded by a digit. -/
def containsDigitDash : List Char → Bool
  | a :: b :: rest => (a.isDigit && b = '-') || containsDigitDash (b :: rest)
  | _ => false

/-! ### Claim theorems -/

/-- C1 (counterexample): on the cell text "foo 1:23-1:45, 2:10" the parser
does not return the pair ("2:10","3:10") with zero skipped tokens as the
claim states: the synthesized end is zero-padded to "03:10" and the token
"foo" is recorded as skipped. -/
theorem C1_counterexample :
    ¬ (parse_timestampsFull (pyStr "foo 1:23-1:45, 2:10") =
      ([(pyStr "1:23", pyStr "1:45"), (pyStr "2:10", pyStr "3:10")], [])) := by
  decide

/-- C1 (amended): parse_timestamps("foo 1:23-1:45, 2:10") returns exactly
the two pairs ("1:23","1:45") and ("2:10","03:10"), in that order, and
reports exactly one skipped token, "foo". -/
theorem C1_parse_example :
    parse_timestampsFull (pyStr "foo 1:23-1:45, 2:10") =
      ([(pyStr "1:23", pyStr "1:45"), (pyStr "2:10", pyStr "03:10")], [pyStr "foo"]) := by
  decide

/-- C2 (counterexample): add_duration("1:23") is not "2:23" and the end
synthesized for "1:23:45" is not "1:24:45": strftime zero-pads every field
to two digits. -/
theorem C2_counterexample :
    ¬ (add_duration (pyStr "1:23") = some (pyStr "2:23") ∧
      parse_timestamps (pyStr "1:23") = [(pyStr "1:23", pyStr "2:23")] ∧
      parse_timestamps (pyStr "1:23:45") = [(pyStr "1:23:45", pyStr "1:24:45")]) := by
  decide

/-- C2 (amended): a single-timestamp token gets its end synthesized by
adding the 60-second default duration, preserving the time family but
zero-padding each field to two digits: parse_timestamps("1:23") yields
[("1:23","02:23")] with add_duration("1:23") = "02:23", and
parse_timestamps("1:23:45") yields one pair ending "01:24:45". -/
theorem C2_default_duration :
    add_duration (pyStr "1:23") = some (pyStr "02:23") ∧
    parse_timestamps (pyStr "1:23") = [(pyStr "1:23", pyStr "02:23")] ∧
    parse_timestamps (pyStr "1:23:45") = [(pyStr "1:23:45", pyStr "01:24:45")] := by
  decide

/-- C3 (counterexample): the cell text "1.23" contains no ':' or '-'
adjacent to a digit, yet the parser returns a non-empty pair list, because
the cleaning step rewrites the period into a colon. -/
theorem C3_counterexample :
    hasColonDashAdjDigit (pyStr "1.23") = false ∧
      parse_timestamps (pyStr "1.23") ≠ [] := by
  decide

/-- Core of claim C3, over the whole embedding: a cell with no ':', '-' or
'.' immediately preceded by a digit parses to the empty pair list. -/
lemma noAdjacency_parse_empty (cell : List Char) (ref : Option (List Char))
    (h : hasAdjacent isDelim cell = false) : parse_timestamps cell ref = [] := by
  by_contra hne
  unfold parse_timestamps parse_timestampsFull at hne
  have htrue : hasAdjacent isDelim cell = true := by
    obtain ⟨tok, htok, p, hcl⟩ := parseLoop_pairs_ne_nil _ hne
    have h2 := classify_pair_adj _ p hcl
    have h3 := cleanToken_adj h2
    have h4 := hasAdjacent_of_infix isDelim
      (mem_splitWs_isInfixOf (normalizeCell cell) tok htok) h3
    exact normalizeCell_adj h4
  rw [htrue] at h
  cases h

/-- C3 (amended): for every ASCII cell text containing no ':', '-' or '.'
immediately preceded by a digit, parse_timestamps returns an empty pair
list, whatever the cell reference.  The ASCII bound confines the claim to
the domain where this embedding's character predicates agree exactly with
CPython's: outside ASCII, `str.isdigit` also accepts characters such as
superscript two, so a cell like a superscript-two followed by "-x" forms a
pair in the source although it contains no ASCII digit before any
delimiter.  The embedding is total, so the bound restricts only what is
claimed, not what is proved. -/
theorem C3_no_adjacency_empty (cell : List Char) (ref : Option (List Char))
    (_hascii : cell.all (fun c => c.toNat ≤ 127) = true)
    (h : hasAdjacent isDelim cell = false) : parse_timestamps cell ref = [] :=
  noAdjacency_parse_empty cell ref h

/-- C3 (witness): the theorem applied to the concrete cell "banana". -/
theorem C3_witness :
    (pyStr "banana").all (fun c => c.toNat ≤ 127) = true ∧
      hasAdjacent isDelim (pyStr "banana") = false ∧
      parse_timestamps (pyStr "banana") none = [] :=
  ⟨by decide, by decide,
    C3_no_adjacency_empty (pyStr "banana") none (by decide) (by decide)⟩

/-- C4 (counterexample): the cleaned token "a-1-2" contains a '-'
immediately preceded by a digit, yet the parser appends no pair and skips
the token, because only the first dash overall is tested. -/
theorem C4_counterexample :
    containsDigitDash (cleanToken (pyStr "a-1-2")) = true ∧
      parse_timestampsFull (pyStr "a-1-2") = ([], [pyStr "a-1-2"]) := by
  decide

/-- C4 (amended): for every raw token whose cleaned form has its first
dash immediately preceded by a digit, the token loop of parse_timestamps
appends the (before, after) split around that first dash verbatim, with no
validation of either half. -/
theorem C4_first_dash_split (tok : List Char) (rest : List (List Char))
    (hne : (cleanToken tok).isEmpty = false)
    (hdash : '-' ∈ cleanToken tok)
    (hpos : 0 < (cleanToken tok).findIdx fun c => c = '-')
    (hdig : ((cleanToken tok).getD
      (((cleanToken tok).findIdx fun c => c = '-') - 1) ' ').isDigit = true) :
    parseLoop (tok :: rest) =
      (((cleanToken tok).take ((cleanToken tok).findIdx fun c => c = '-'),
        (cleanToken tok).drop (((cleanToken tok).findIdx fun c => c = '-') + 1))
          :: (parseLoop rest).1,
       (parseLoop rest).2) := by
  have hcl : classifyToken (cleanToken tok) =
      .pair ((cleanToken tok).take ((cleanToken tok).findIdx fun c => c = '-'),
        (cleanToken tok).drop (((cleanToken tok).findIdx fun c => c = '-') + 1)) := by
    unfold classifyToken
    rw [if_neg (by simp [hne]), if_pos hdash, if_pos ⟨hpos, hdig⟩]
  rw [parseLoop, hcl]

/-- C4 (witness): the theorem applied to the token "9-abc", whose halves
are not well-formed times yet become a pair verbatim. -/
theorem C4_witness : parseLoop [pyStr "9-abc"] = ([(pyStr "9", pyStr "abc")], []) := by
  have h := C4_first_dash_split (pyStr "9-abc") [] (by decide) (by decide)
    (by decide) (by decide)
  rw [h]
  decide

/-- C5: parse_timestamps is a total function returning a (possibly empty)
pair list for every cell value and optional cell reference, and an issue
whose cell parses to the empty list is counted as skipped by the
orchestrator while the rest of the batch is still processed: the generated
count equals that of the remaining issues. -/
theorem C5_empty_parse_skips (env : Env) (clip : Issue) (rest : List Issue)
    (h : parse_timestamps clip.cellValue clip.cellRef = []) :
    processClipsAux env (clip :: rest) =
      ((processClipsAux env rest).1, (processClipsAux env rest).2 + 1) ∧
    process_clips env (clip :: rest) = (processClipsAux env rest).1 := by
  have ht : (clean_issue clip).times = [] := by
    simp [clean_issue, h]
  constructor
  · rw [processClipsAux]
    simp [ht]
  · rw [process_clips]
    simp only [List.isEmpty_cons, if_false]
    rw [processClipsAux]
    simp [ht]

/-- C5 (witness): the theorem applied to a concrete unparseable cell. -/
theorem C5_witness :
    processClipsAux ⟨[], fun _ => none, fun _ _ _ _ _ => false, false, fun _ => true⟩
        [{ cellValue := pyStr "hello", desc := pyStr "d", category := [],
           study := pyStr "s", participant := pyStr "P01" }] =
      ((processClipsAux ⟨[], fun _ => none, fun _ _ _ _ _ => false, false,
          fun _ => true⟩ []).1,
       (processClipsAux ⟨[], fun _ => none, fun _ _ _ _ _ => false, false,
          fun _ => true⟩ []).2 + 1) :=
  (C5_empty_parse_skips _ _ [] (by decide)).1

/-- C6: for every cleaned issue the orchestrator builds the output clip
name exactly as "[category] study participant description" plus the
configured extension, with sanitize_filename applied to the description
(after bracket stripping) and to the category, and "uncategorized"
substituted for an empty category. -/
theorem C6_output_name (i : Issue) :
    buildClipName (clean_issue i) =
      '[' :: (if i.category.isEmpty then pyStr "uncategorized"
          else sanitize_filename i.category)
        ++ pyStr "] " ++ i.study ++ ' ' :: i.participant ++ ' ' ::
        sanitize_filename
          (match rfindChar i.desc ']' with
            | some p => pyStrip (i.desc.drop (p + 1))
            | none => pyStrip i.desc) ++ FILEFORMAT := rfl

set_option maxRecDepth 4000 in
/-- C7: with a filesystem containing the 264-character base name, its "-1"
variant, and the 255-character truncation of the "-3" variant,
get_unique_filename walks the suffixes -1, -2, reaches the free name
ending "-2.mp4", but then truncate_filename rebuilds the suffix from the
already-incremented step, returning a name ending "-3.mp4" that still
exists in the filesystem: the returned name collides and the numeric
suffix of the free name is not preserved. -/
theorem C7_truncation_collision :
    get_unique_filename
      [List.replicate 260 'a' ++ FILEFORMAT,
       List.replicate 260 'a' ++ pyStr "-1.mp4",
       List.replicate 249 'a' ++ pyStr "-3.mp4"]
      (List.replicate 260 'a' ++ FILEFORMAT) =
      List.replicate 249 'a' ++ pyStr "-3.mp4" ∧
    (List.replicate 249 'a' ++ pyStr "-3.mp4") ∈
      [List.replicate 260 'a' ++ FILEFORMAT,
       List.replicate 260 'a' ++ pyStr "-1.mp4",
       List.replicate 249 'a' ++ pyStr "-3.mp4"] := by
  decide

lemma processClipsAux_cons (env : Env) (c : Issue) (rest : List Issue) :
    processClipsAux env (c :: rest) =
      (if (clean_issue c).times.isEmpty then
        ((processClipsAux env rest).1, (processClipsAux env rest).2 + 1)
      else
        ((processIssueTimes env (clean_issue c) (baseVideoName (clean_issue c))
            (clean_issue c).times).1 + (processClipsAux env rest).1,
         (processIssueTimes env (clean_issue c) (baseVideoName (clean_issue c))
            (clean_issue c).times).2 + (processClipsAux env rest).2)) := rfl

lemma processIssueTimes_missing (env : Env) (c : Issue) (base : List Char)
    (hbase : base ∉ env.fs) (henc : env.encodeOk (buildClipName c) = true) :
    ∀ ts, processIssueTimes env c base ts = (0, ts.length) := by
  intro ts
  induction ts with
  | nil => rfl
  | cons pr rest ih =>
    obtain ⟨vin, vout⟩ := pr
    rw [processIssueTimes]
    rw [henc]
    simp only [Bool.not_true, Bool.false_eq_true, if_false]
    have hrf : run_ffmpeg env base
        (get_unique_filename env.fs (buildClipName c)) vin vout REENCODING = false := by
      unfold run_ffmpeg
      rw [if_pos hbase]
    rw [hrf, ih]
    simp

/-- C8: the clip orchestrator runs to completion over any issue list --
processing a concatenation processes both halves and adds the counts, so
no issue aborts the batch -- it returns exactly the generated count of the
loop, and an issue whose source video is missing (with no encoding
failure) contributes zero generated clips and one skip per parsed pair. -/
theorem C8_process_completes :
    (∀ (env : Env) (xs ys : List Issue),
      processClipsAux env (xs ++ ys) =
        ((processClipsAux env xs).1 + (processClipsAux env ys).1,
         (processClipsAux env xs).2 + (processClipsAux env ys).2)) ∧
    (∀ (env : Env) (clips : List Issue),
      process_clips env clips = (processClipsAux env clips).1) ∧
    (∀ (env : Env) (c : Issue), (clean_issue c).times ≠ [] →
      baseVideoName (clean_issue c) ∉ env.fs →
      env.encodeOk (buildClipName (clean_issue c)) = true →
      processClipsAux env [c] = (0, (clean_issue c).times.length)) := by
  refine ⟨?_, ?_, ?_⟩
  · intro env xs ys
    induction xs with
    | nil => simp [processClipsAux]
    | cons c xs ih =>
      rcases hxs : processClipsAux env xs with ⟨g1, s1⟩
      rcases hys : processClipsAux env ys with ⟨g2, s2⟩
      rw [List.cons_append, processClipsAux_cons, processClipsAux_cons, ih, hxs, hys]
      by_cases hc : (clean_issue c).times.isEmpty = true
      · rw [if_pos hc, if_pos hc]
        simp only [Prod.mk.injEq]
        constructor
        all_goals try simp
        all_goals omega
      · rw [if_neg hc, if_neg hc]
        simp only [Prod.mk.injEq]
        constructor
        all_goals omega
  · intro env clips
    cases clips with
    | nil => rfl
    | cons c rest => rfl
  · intro env c h1 h2 h3
    have he : (clean_issue c).times.isEmpty = false := by
      rcases hts : (clean_issue c).times with _ | ⟨p, ts⟩
      · exact absurd hts h1
      · rfl
    rw [processClipsAux]
    simp only [he, if_false]
    rw [processIssueTimes_missing env _ _ h2 h3]
    rfl

/-- C8 (witness): the three parts of the theorem applied to a concrete
environment with no files and a concrete issue holding one parsed pair. -/
theorem C8_witness :
    (processClipsAux ⟨[], fun _ => none, fun _ _ _ _ _ => false, false, fun _ => true⟩
        ([{ cellValue := pyStr "1:23-4:56", desc := pyStr "d", category := [],
            study := pyStr "s", participant := pyStr "P01" }] ++ []) =
      ((processClipsAux ⟨[], fun _ => none, fun _ _ _ _ _ => false, false, fun _ => true⟩
          [{ cellValue := pyStr "1:23-4:56", desc := pyStr "d", category := [],
             study := pyStr "s", participant := pyStr "P01" }]).1 +
        (processClipsAux ⟨[], fun _ => none, fun _ _ _ _ _ => false, false,
           fun _ => true⟩ []).1,
       (processClipsAux ⟨[], fun _ => none, fun _ _ _ _ _ => false, false, fun _ => true⟩
          [{ cellValue := pyStr "1:23-4:56", desc := pyStr "d", category := [],
             study := pyStr "s", participant := pyStr "P01" }]).2 +
        (processClipsAux ⟨[], fun _ => none, fun _ _ _ _ _ => false, false,
           fun _ => true⟩ []).2)) ∧
    (process_clips ⟨[], fun _ => none, fun _ _ _ _ _ => false, false, fun _ => true⟩ [] =
      (processClipsAux ⟨[], fun _ => none, fun _ _ _ _ _ => false, false,
         fun _ => true⟩ []).1) ∧
    (processClipsAux ⟨[], fun _ => none, fun _ _ _ _ _ => false, false, fun _ => true⟩
        [{ cellValue := pyStr "1:23-4:56", desc := pyStr "d", category := [],
           study := pyStr "s", participant := pyStr "P01" }] =
      (0, (clean_issue
          { cellValue := pyStr "1:23-4:56", desc := pyStr "d", category := [],
            study := pyStr "s", participant := pyStr "P01" }).times.length)) := by
  refine ⟨C8_process_completes.1 _ _ _, C8_process_completes.2.1 _ _,
    C8_process_completes.2.2 _ _ ?_ ?_ ?_⟩
  · decide
  · decide
  · rfl

/-- C9: the cleaning step keeps only the description text after the last
right bracket: when the description is u ++ "]" ++ v with no bracket in v,
the cleaned description is v stripped and sanitized; a description without
a bracket is only stripped and sanitized. -/
theorem C9_desc_after_bracket :
    (∀ (i : Issue) (u v : List Char), i.desc = u ++ ']' :: v → ']' ∉ v →
      (clean_issue i).desc = sanitize_filename (pyStrip v)) ∧
    (∀ i : Issue, ']' ∉ i.desc → (clean_issue i).desc = sanitize_filename (pyStrip i.desc)) := by
  constructor
  · intro i u v hdesc hnot
    have hdrop : (u ++ ']' :: v).drop (u.length + 1) = v := by
      simp
    unfold clean_issue
    simp only [hdesc, rfindChar_last u v ']' hnot, hdrop]
  · intro i h
    unfold clean_issue
    simp only [rfindChar_eq_none h]

/-- C9 (witness): both parts of the theorem applied to concrete
descriptions. -/
theorem C9_witness :
    (clean_issue
      { cellValue := pyStr "1:23", desc := pyStr "[x] a.b",
        category := pyStr "Nav", study := pyStr "s",
        participant := pyStr "P01" }).desc = sanitize_filename (pyStrip (pyStr " a.b")) ∧
    (clean_issue
      { cellValue := pyStr "1:23", desc := pyStr "plain",
        category := pyStr "Nav", study := pyStr "s",
        participant := pyStr "P01" }).desc = sanitize_filename (pyStrip (pyStr "plain")) :=
  ⟨C9_desc_after_bracket.1 _ (pyStr "[x") (pyStr " a.b") (by decide) (by decide),
   C9_desc_after_bracket.2 _ (by decide)⟩

/-- C10: sanitize_filename is idempotent: every character it outputs is a
fixed point of every replacement and removal rule, so a second application
changes nothing. -/
theorem C10_sanitize_idempotent (t : List Char) :
    sanitize_filename (sanitize_filename t) = sanitize_filename t :=
  sanitize_fixed _ (sanitize_mem_good t)

end Clipgen



